import Mathlib

/-!
# Verification of the RAG_LLM retrieval-and-generation pipeline

Shallow embedding of the core logic of the repository (src/llm.py, src/rag.py,
src/database.py, src/models.py, src/routes/search.py, src/routes/rag_routes.py)
and proofs of the spec claims about it.

Modelling conventions:
* Python strings are `List Char`; Python string methods (`strip`, `split`,
  `join`, `lower`, `upper`, `isupper`, `endswith`) are embedded below with
  their CPython semantics on ASCII text (`str.strip` with no argument strips
  the ASCII whitespace characters; `str.upper`/`str.isupper` are modelled for
  basic latin letters, the only case this code base exercises).
* Python floats are modelled as rationals (`Rat`); `round(x, 4)` is CPython
  round-half-to-even on the exact value.
* External collaborators (the Ollama LLM runtime, the Ollama embedding
  endpoint, the ChromaDB collection) are parameters of the embedded
  functions: an oracle `Nat → Except Unit (List Char)` gives the outcome of
  the n-th LLM generation attempt, `Except Unit (Option (List Rat))` is the
  embedding provider response, and a function `List Rat → Int → List SRow`
  is the collection query.
* Python exceptions that escape a function are `Except` errors; a Python
  function that cannot raise is embedded as a total function.
-/

/-- Convert a string literal to the `List Char` representation used here. -/
def str (s : String) : List Char := s.data

/-- The ASCII whitespace characters stripped by Python `str.strip()`:
space, tab, newline, carriage return, vertical tab, form feed. -/
def isWs (c : Char) : Bool :=
  c.toNat = 32 || c.toNat = 9 || c.toNat = 10 || c.toNat = 13 ||
  c.toNat = 11 || c.toNat = 12

/-- Python `str.lstrip()`: drop leading whitespace. -/
def lstrip (l : List Char) : List Char := l.dropWhile isWs

/-- Python `str.rstrip()`: drop trailing whitespace. -/
def rstrip (l : List Char) : List Char := (l.reverse.dropWhile isWs).reverse

/-- Python `str.strip()`: drop leading and trailing whitespace. -/
def strip (l : List Char) : List Char := lstrip (rstrip l)

/-- Python `text.split('.')`: split on every `'.'`, keeping empty pieces
(`"".split('.') == [""]`). -/
def splitOnDot : List Char → List (List Char)
  | [] => [[]]
  | c :: cs =>
    if c = '.' then [] :: splitOnDot cs
    else
      match splitOnDot cs with
      | [] => [[c]]
      | p :: ps => (c :: p) :: ps

/-- Python `'.'.join(parts)`. -/
def joinDot : List (List Char) → List Char
  | [] => []
  | [p] => p
  | p :: ps => p ++ '.' :: joinDot ps

/-- Python `". ".join(parts)`. -/
def joinDotSpace : List (List Char) → List Char
  | [] => []
  | [p] => p
  | p :: ps => p ++ '.' :: ' ' :: joinDotSpace ps

/-- Python `text.split('. ')`: split on the two-character separator,
left to right, non-overlapping. -/
def splitDotSpace : List Char → List (List Char)
  | [] => [[]]
  | '.' :: ' ' :: rest => [] :: splitDotSpace rest
  | c :: rest =>
    match splitDotSpace rest with
    | [] => [[c]]
    | p :: ps => (c :: p) :: ps

/-- Python `str.split()` with no argument: split on whitespace runs,
producing no empty words.  `acc` is the current word, reversed. -/
def splitWsAux : List Char → List Char → List (List Char)
  | [], acc => if acc = [] then [] else [acc.reverse]
  | c :: cs, acc =>
    if isWs c then
      if acc = [] then splitWsAux cs [] else acc.reverse :: splitWsAux cs []
    else splitWsAux cs (c :: acc)

/-- Python `str.split()` with no argument. -/
def splitWs (l : List Char) : List (List Char) := splitWsAux l []

/-- Python `str.lower()` (basic latin letters, via `Char.toLower`). -/
def lowerStr (l : List Char) : List Char := l.map Char.toLower

/-- Python `str.isupper()` on a single character (ASCII model: true exactly
for `A`–`Z`). -/
def pyIsUpper (c : Char) : Bool := 65 ≤ c.toNat && c.toNat ≤ 90

/-- Python `text.endswith(('.', '!', '?'))`. -/
def endsWithPunct (l : List Char) : Bool :=
  match l.getLast? with
  | some c => c = '.' || c = '!' || c = '?'
  | none => false

/-- The capitalisation step of `ensure_proper_ending` (src/llm.py lines
257-259): `if text and not text[0].isupper(): text = text[0].upper() + text[1:]`. -/
def capFirst (l : List Char) : List Char :=
  match l with
  | [] => []
  | c :: cs => if pyIsUpper c then c :: cs else Char.toUpper c :: cs

/-- `ensure_proper_ending` from src/llm.py lines 235-261, embedded
statement by statement. -/
def ensureProperEnding (text : List Char) : List Char :=
  if text = [] then text
  else
    let t := strip text
    if endsWithPunct t then t
    else
      let parts := splitOnDot t
      let lastSentence := strip (parts.getLastD [])
      let t2 :=
        if lastSentence.length < 5 then
          if 1 < parts.length then joinDot parts.dropLast ++ ['.']
          else rstrip t ++ ['.']
        else t
      capFirst t2

/-- The first character, if any, is not whitespace. -/
def headOk (l : List Char) : Bool :=
  match l.head? with
  | some c => !isWs c
  | none => true
/-- The last character, if any, is not whitespace. -/
def lastOk (l : List Char) : Bool :=
  match l.getLast? with
  | some c => !isWs c
  | none => true
/-- The body of `ensure_proper_ending` after the initial `strip`, with the
final capitalisation distributed into the branches; `epe_eq` below proves it
equal to `ensureProperEnding` on the stripped text. -/
def epeCore (t : List Char) : List Char :=
  if endsWithPunct t then t
  else if (strip ((splitOnDot t).getLastD [])).length < 5 then
    if 1 < (splitOnDot t).length then capFirst (joinDot (splitOnDot t).dropLast ++ ['.'])
    else capFirst (rstrip t ++ ['.'])
  else capFirst t

/-! ## Extractive fallback (src/rag.py) -/

/-- `len(set(query_words) & set(sentence_words))`: the number of distinct
lowercase words of `s` that also occur among `queryWords`. -/
def overlapCount (queryWords : List (List Char)) (s : List Char) : Nat :=
  (((splitWs (lowerStr s)).dedup).filter (fun w => queryWords.contains w)).length

/-- Stable insertion into a list sorted by non-increasing overlap count:
skip past strictly greater keys, then place the element before every
element with a smaller-or-equal key that was encountered later. -/
def insertByOverlap (x : List Char × Nat) : List (List Char × Nat) → List (List Char × Nat)
  | [] => [x]
  | y :: ys => if x.2 < y.2 then y :: insertByOverlap x ys else x :: y :: ys

/-- Stable sort by non-increasing overlap count: the unique stable
descending reordering, i.e. the semantics of Python
`list.sort(key=lambda x: x[1], reverse=True)`. -/
def sortByOverlapDesc : List (List Char × Nat) → List (List Char × Nat)
  | [] => []
  | x :: xs => insertByOverlap x (sortByOverlapDesc xs)

/-- `generate_answer_extractive` from src/rag.py lines 5-24: keyword-overlap
extractive answer. -/
def generateAnswerExtractive (query : List Char) (contextDocs : List (List Char)) :
    List Char × List Char :=
  if contextDocs = [] then (str "No relevant docs found.", str "extractive")
  else
    let queryWords := (splitWs (lowerStr query)).dedup
    let bestSentences :=
      (contextDocs.map (fun doc =>
        (splitDotSpace doc).filterMap (fun s =>
          let overlap := overlapCount queryWords s
          if 0 < overlap then some (s, overlap) else none))).flatten
    let sorted := sortByOverlapDesc bestSentences
    let topSentences := (sorted.take 3).map (fun x => x.1)
    let joined := joinDotSpace topSentences
    (if joined = [] then str "No good match." else joined, str "extractive")

/-! ## Answer generator (src/llm.py `generate_answer`) -/

/-- `config.MIN_RESPONSE_TOKENS` from src/config.py. -/
def MIN_RESPONSE_TOKENS : Nat := 50

/-- `config.MAX_RESPONSE_TOKENS` from src/config.py. -/
def MAX_RESPONSE_TOKENS : Nat := 1500

/-- The retry loop of `generate_answer` (src/llm.py lines 43-105).
`gen n` is the outcome of the Ollama generation call on attempt `n`
(`.error` models a raised exception); `fuel` is `maxRetries - attempt`,
which makes the Python `for attempt in range(max_retries)` loop structural.
The model-availability preflight and the monitoring record swallow their own
exceptions and do not affect the returned value, so they are not modelled. -/
def genLoop (gen : Nat → Except Unit (List Char)) (model question : List Char)
    (contextDocs : List (List Char)) (maxRetries : Nat) :
    Nat → Nat → List Char × List Char
  | 0, _ => generateAnswerExtractive question contextDocs
  | fuel + 1, attempt =>
    match gen attempt with
    | .ok resp =>
      let answer := strip resp
      let wordCount := (splitWs answer).length
      if wordCount < MIN_RESPONSE_TOKENS ∧ attempt < maxRetries - 1 then
        genLoop gen model question contextDocs maxRetries fuel (attempt + 1)
      else
        (ensureProperEnding answer, str "ollama-" ++ model)
    | .error _ =>
      if attempt < maxRetries - 1 then
        genLoop gen model question contextDocs maxRetries fuel (attempt + 1)
      else
        generateAnswerExtractive question contextDocs

/-- `generate_answer` from src/llm.py lines 38-105: `max_retries = 2`,
starting at attempt 0. -/
def generateAnswer (gen : Nat → Except Unit (List Char)) (model question : List Char)
    (contextDocs : List (List Char)) : List Char × List Char :=
  genLoop gen model question contextDocs 2 2 0

/-! ## Similarity search (src/database.py, src/routes/search.py) -/

/-- CPython `round(x, 4)` on the exact rational value: round half to even. -/
def roundHalfEven (x : Rat) : Int :=
  let f := ⌊x⌋
  let frac := x - f
  if frac < 1 / 2 then f
  else if 1 / 2 < frac then f + 1
  else if f % 2 = 0 then f else f + 1

/-- `round(similarity, 4)` from src/routes/search.py line 32. -/
def round4 (x : Rat) : Rat := (roundHalfEven (x * 10000) : Int) / 10000

/-- One row of a ChromaDB `collection.query` response: id, document text,
metadata, cosine distance. -/
structure SRow where
  id : List Char
  document : List Char
  metadata : List (List Char × List Char)
  distance : Rat
deriving DecidableEq

/-- `metadata.get("title", "Untitled")` from src/routes/search.py line 30. -/
def metaTitle (m : List (List Char × List Char)) : List Char :=
  match m.lookup (str "title") with
  | some t => t
  | none => str "Untitled"

/-- A `SearchResult` (src/models.py lines 22-27). -/
structure SearchResultM where
  id : List Char
  title : List Char
  content : List Char
  similarity : Rat
  metadata : List (List Char × List Char)
deriving DecidableEq

/-- The result-building loop of `search_documents`
(src/routes/search.py lines 23-34): similarity = `max(0, 1 - distance)`,
keep rows with similarity ≥ threshold, store the similarity rounded to
4 decimal places. -/
def searchCore (threshold : Rat) : List SRow → List SearchResultM
  | [] => []
  | row :: rest =>
    let similarity := max 0 (1 - row.distance)
    if threshold ≤ similarity then
      { id := row.id, title := metaTitle row.metadata, content := row.document,
        similarity := round4 similarity, metadata := row.metadata } :: searchCore threshold rest
    else searchCore threshold rest

/-- `get_ollama_embedding` from src/database.py lines 18-39.  The provider
response is `.error ()` when `ollama.embeddings` raises, `.ok none` when the
response is falsy or lacks an `"embedding"` key, and `.ok (some v)` when it
carries the vector `v`.  Every failure path returns the empty list. -/
def getOllamaEmbedding (text : List Char) (provider : Except Unit (Option (List Rat))) :
    List Rat :=
  if strip text = [] then []
  else
    match provider with
    | .error _ => []
    | .ok none => []
    | .ok (some embedding) => if embedding ≠ [] then embedding else []

/-- `search_documents` from src/routes/search.py lines 7-36.
`collectionResp emb n` is the row list returned by
`collection.query(query_embeddings=[emb], n_results=n, ...)`; the code
passes `n_results = min(query.top_k, 20)`.  The only error is the
HTTP 400 on an empty question. -/
def searchDocuments (question : List Char) (topK : Int) (threshold : Rat)
    (provider : Except Unit (Option (List Rat)))
    (collectionResp : List Rat → Int → List SRow) : Except Nat (List SearchResultM) :=
  if strip question = [] then .error 400
  else
    let queryEmbedding := getOllamaEmbedding question provider
    let rows := collectionResp queryEmbedding (min topK 20)
    .ok (searchCore threshold rows)

/-! ## Query model and defaults (src/models.py, src/routes/rag_routes.py) -/

/-- Pydantic parsing of the `top_k` field of `Query` (src/models.py line 18,
`top_k: Optional[int] = 3`): outer `none` means the field is absent from the
request (the model default 3 applies), `some none` means an explicit null,
`some (some n)` an explicit integer. -/
def parseTopK : Option (Option Int) → Option Int
  | none => some 3
  | some v => v

/-- Pydantic parsing of the `threshold` field of `Query` (src/models.py
line 19, `threshold: Optional[float] = 0.3`). -/
def parseThreshold : Option (Option Rat) → Option Rat
  | none => some (3 / 10)
  | some v => v

/-- Python `x or d` for an optional integer: `None` and `0` are falsy. -/
def pyOrInt (v : Option Int) (d : Int) : Int :=
  match v with
  | none => d
  | some n => if n = 0 then d else n

/-- Python `x or d` for an optional float: `None` and `0.0` are falsy. -/
def pyOrRat (v : Option Rat) (d : Rat) : Rat :=
  match v with
  | none => d
  | some x => if x = 0 then d else x

/-! ## The synchronous RAG route (src/routes/rag_routes.py `perform_rag`) -/

/-- Errors escaping `perform_rag`: an HTTPException with a status code, or
an uncaught Python `ValueError`. -/
inductive PyErr where
  | http (code : Nat)
  | valueError
deriving DecidableEq

/-- A `RAGResponse` (src/models.py lines 29-34). -/
structure RagResponseM where
  query : List Char
  generatedAnswer : List Char
  timestamp : List Char
  modelUsed : List Char
deriving DecidableEq

/-- Python tuple unpacking `a, b = s` of a string `s`: succeeds only when
`s` has exactly two characters (each bound as a one-character string);
any other length raises a `ValueError`. -/
def unpack2 (s : List Char) : Except PyErr (List Char × List Char) :=
  match s with
  | [a, b] => .ok ([a], [b])
  | _ => .error .valueError

/-- `perform_rag` from src/routes/rag_routes.py lines 12-39, embedded
statement by statement.  Lines 29 and 31 are
`generated_answer, model_used = "No relevant documents found."`, a tuple
unpacking of a 28-character string, embedded by `unpack2`. -/
def performRag (gen : Nat → Except Unit (List Char)) (model : List Char)
    (provider : Except Unit (Option (List Rat)))
    (collectionResp : List Rat → Int → List SRow)
    (question : List Char) (topK? : Option Int) (threshold? : Option Rat)
    (timestamp : List Char) : Except PyErr RagResponseM :=
  if strip question = [] then .error (.http 400)
  else
    let topK := pyOrInt topK? 20
    let threshold := pyOrRat threshold? (11 / 20)
    match searchDocuments question topK threshold provider collectionResp with
    | .error code => .error (.http code)
    | .ok searchResults =>
      if searchResults ≠ [] then
        let contextDocs := (searchResults.filter
          (fun r => threshold ≤ r.similarity)).map (fun r => r.content)
        if contextDocs ≠ [] then
          let res := generateAnswer gen model question contextDocs
          .ok ⟨question, res.1, timestamp, res.2⟩
        else
          match unpack2 (str "No relevant documents found.") with
          | .ok pair => .ok ⟨question, pair.1, timestamp, pair.2⟩
          | .error e => .error e
      else
        match unpack2 (str "No relevant documents found.") with
        | .ok pair => .ok ⟨question, pair.1, timestamp, pair.2⟩
        | .error e => .error e

/-! ## Streaming answer generator (src/llm.py `generate_answer_streaming`)

The crucial scoping fact embedded here: `import asyncio` / `import random`
appear inside the function body (lines 191-192 and 231-232), which makes
`asyncio` and `random` function-local names throughout the body.  The
natural-ending pause at line 180 (`await asyncio.sleep(...)`) therefore
raises `UnboundLocalError` whenever it runs before the import at line 191
has executed.  `imported` tracks whether line 191 has run; a raised
exception is propagated as `.error` carrying the chunks already yielded,
and the `except` handler at lines 218-233 appends a simulated word-by-word
stream of a freshly generated full answer. -/

/-- The natural break characters of the streaming chunker
(src/llm.py line 163). -/
def breakChars : List Char := [' ', '.', ',', '!', '?', ':', ';', '\n']

/-- Python `text.endswith(suffix)`. -/
def endsWithL (l suffix : List Char) : Bool := suffix.isSuffixOf l

/-- The closing-phrase patterns of `detect_natural_ending`
(src/llm.py lines 300-303), `re.search(p + r'\.?$', text, re.IGNORECASE)`. -/
def phraseEnd (text : List Char) : Bool :=
  let lowered := lowerStr text
  [str "thank you", str "that\x27s all", str "in conclusion", str "hope this helps"].any
    (fun p => endsWithL lowered p || endsWithL lowered (p ++ ['.']))

/-- `detect_natural_ending` from src/llm.py lines 288-318. -/
def detectNaturalEnding (text : List Char) : Bool :=
  if text = [] then false
  else if endsWithL text ['.'] || endsWithL text ['!'] || endsWithL text ['?'] then true
  else if endsWithL (rstrip text) ['.'] then true
  else if phraseEnd text then true
  else
    let sentences := splitOnDot text
    if 1 < sentences.length then
      decide ((strip (sentences.getLastD [])).length < 5)
    else false

/-- The inner `while len(buffer) > 0` chunking loop of
`generate_answer_streaming` (src/llm.py lines 161-200).  Scans for the first
break character; on a break, yields up to and including it, and if
`detect_natural_ending` fires without `asyncio` imported, raises
(`.error` carries the chunks yielded so far).  Without a break, a buffer
longer than 10 characters is flushed whole (running the local imports,
line 191), and a short buffer waits for more input.  Returns
`(chunks, accumulated, buffer, imported)`.  `fuel` makes the loop
structural: every pass consumes at least one buffer character, so callers
pass `buffer.length` and the fuel never runs out. -/
def processBuffer (fuel : Nat) (imported : Bool) (acc : List Char)
    (chunks : List (List Char)) (buffer : List Char) :
    Except (List (List Char)) (List (List Char) × List Char × List Char × Bool) :=
  match fuel, buffer with
  | _, [] => .ok (chunks, acc, [], imported)
  | 0, buffer => .ok (chunks, acc, buffer, imported)
  | fuel + 1, buffer =>
    let i := buffer.findIdx (fun c => breakChars.contains c)
    if i < buffer.length then
      let chunkToYield := buffer.take (i + 1)
      let acc2 := acc ++ chunkToYield
      let rest := buffer.drop (i + 1)
      let chunks2 := chunks ++ [chunkToYield]
      if detectNaturalEnding acc2 then
        if imported then processBuffer fuel imported acc2 chunks2 rest
        else .error chunks2
      else processBuffer fuel imported acc2 chunks2 rest
    else if 10 < buffer.length then
      .ok (chunks ++ [buffer], acc ++ buffer, [], true)
    else
      .ok (chunks, acc, buffer, imported)

/-- The outer `for chunk in stream` loop of `generate_answer_streaming`
(src/llm.py lines 147-200): falsy (empty) fragments are skipped; reaching
the chunk budget flushes the buffer (without clearing it, as in the source)
and stops consuming.  Returns `(chunks, accumulated, buffer)`. -/
def streamLoop (maxChunks : Nat) (count : Nat) (imported : Bool)
    (acc buffer : List Char) (chunks : List (List Char)) :
    List (List Char) → Except (List (List Char)) (List (List Char) × List Char × List Char)
  | [] => .ok (chunks, acc, buffer)
  | s :: rest =>
    if s = [] then streamLoop maxChunks count imported acc buffer chunks rest
    else
      let buffer2 := buffer ++ s
      let count2 := count + 1
      if maxChunks ≤ count2 then
        if buffer2 ≠ [] then .ok (chunks ++ [buffer2], acc ++ buffer2, buffer2)
        else .ok (chunks, acc, buffer2)
      else
        match processBuffer buffer2.length imported acc chunks buffer2 with
        | .error cs => .error cs
        | .ok (chunks2, acc2, buffer3, imported2) =>
          streamLoop maxChunks count2 imported2 acc2 buffer3 chunks2 rest

/-- The word-by-word simulated stream of the `except` handler
(src/llm.py lines 228-233): each word but the last is yielded with a
trailing space. -/
def wordChunks : List (List Char) → List (List Char)
  | [] => []
  | [w] => [w]
  | w :: ws => (w ++ [' ']) :: wordChunks ws

/-- `generate_answer_streaming` from src/llm.py lines 107-233, as the list
of yielded chunks.  `stream` is the fragment sequence produced by the
underlying `ollama.generate(..., stream=True)` call; `gen` is the oracle for
the non-streaming `generate_answer` used by the fallback path.  After a
normal run the remaining buffer is yielded (line 203, without updating
`accumulated_text`) and the `ensure_proper_ending` delta of the accumulated
text is yielded (lines 207-212). -/
def streamGen (gen : Nat → Except Unit (List Char)) (model question : List Char)
    (contextDocs : List (List Char)) (stream : List (List Char)) : List (List Char) :=
  match streamLoop (MAX_RESPONSE_TOKENS / 10) 0 false [] [] [] stream with
  | .ok (chunks, acc, buffer) =>
    let chunks2 := if buffer ≠ [] then chunks ++ [buffer] else chunks
    let finalAnswer := ensureProperEnding acc
    if finalAnswer ≠ acc then
      let remaining := finalAnswer.drop acc.length
      if remaining ≠ [] then chunks2 ++ [remaining] else chunks2
    else chunks2
  | .error chunksSoFar =>
    let res := generateAnswer gen model question contextDocs
    chunksSoFar ++ wordChunks (splitWs res.1)

/-! ## Helper lemmas: ASCII case mapping -/

theorem charOfNat_toNat_sub32 (n : Nat) (h1 : 97 ≤ n) (h2 : n ≤ 122) :
    (Char.ofNat (n - 32)).toNat = n - 32 := by
  interval_cases n <;> decide

theorem toUpper_toNat_of_lower (c : Char) (h1 : 97 ≤ c.toNat) (h2 : c.toNat ≤ 122) :
    (Char.toUpper c).toNat = c.toNat - 32 := by
  have hc : Char.toUpper c = Char.ofNat (c.toNat - 32) := by
    simp only [Char.toUpper]
    rw [if_pos ⟨h1, h2⟩]
  rw [hc]
  exact charOfNat_toNat_sub32 c.toNat h1 h2

theorem toUpper_of_not_lower (c : Char) (h : ¬(97 ≤ c.toNat ∧ c.toNat ≤ 122)) :
    Char.toUpper c = c := by
  simp only [Char.toUpper]
  rw [if_neg h]

theorem isWs_eq_false_of_bounds (c : Char) (h1 : 65 ≤ c.toNat) (h2 : c.toNat ≤ 122) :
    isWs c = false := by
  simp only [isWs, Bool.or_eq_false_iff, decide_eq_false_iff_not]
  omega

theorem isWs_toUpper (c : Char) : isWs (Char.toUpper c) = isWs c := by
  by_cases h : 97 ≤ c.toNat ∧ c.toNat ≤ 122
  · have hu := toUpper_toNat_of_lower c h.1 h.2
    rw [isWs_eq_false_of_bounds c (by omega) h.2,
      isWs_eq_false_of_bounds (Char.toUpper c) (by omega) (by omega)]
  · rw [toUpper_of_not_lower c h]

theorem pyIsUpper_toUpper_of_lower (c : Char) (h1 : 97 ≤ c.toNat) (h2 : c.toNat ≤ 122) :
    pyIsUpper (Char.toUpper c) = true := by
  have h := toUpper_toNat_of_lower c h1 h2
  simp only [pyIsUpper, h, Bool.and_eq_true, decide_eq_true_eq]
  omega

theorem toUpper_ne_dot_of_lower (c : Char) (h1 : 97 ≤ c.toNat) (h2 : c.toNat ≤ 122) :
    Char.toUpper c ≠ '.' := by
  intro h
  have h3 := congrArg Char.toNat h
  rw [toUpper_toNat_of_lower c h1 h2] at h3
  have h4 : Char.toNat '.' = 46 := rfl
  rw [h4] at h3
  omega

theorem ne_dot_of_lower (c : Char) (h1 : 97 ≤ c.toNat) (h2 : c.toNat ≤ 122) :
    c ≠ '.' := by
  intro h
  subst h
  exact absurd h1 (by decide)

theorem not_isWs_of_lower (c : Char) (h1 : 97 ≤ c.toNat) (h2 : c.toNat ≤ 122) :
    isWs c = false :=
  isWs_eq_false_of_bounds c (by omega) h2

/-! ## Helper lemmas: strip -/

theorem headOk_lstrip (l : List Char) : headOk (lstrip l) = true := by
  have h := List.head?_dropWhile_not isWs l
  unfold headOk lstrip
  revert h
  cases (l.dropWhile isWs).head? with
  | none => intro h; rfl
  | some c => intro h; simp [h]

theorem lastOk_rstrip (l : List Char) : lastOk (rstrip l) = true := by
  have h := List.head?_dropWhile_not isWs l.reverse
  unfold lastOk rstrip
  rw [List.getLast?_reverse]
  revert h
  cases (l.reverse.dropWhile isWs).head? with
  | none => intro h; rfl
  | some c => intro h; simp [h]

theorem lstrip_eq_self (l : List Char) (h : headOk l = true) : lstrip l = l := by
  cases l with
  | nil => rfl
  | cons c cs =>
    unfold headOk at h
    simp only [List.head?_cons, Bool.not_eq_true'] at h
    unfold lstrip
    exact List.dropWhile_cons_of_neg (by simp [h])

theorem rstrip_eq_self (l : List Char) (h : lastOk l = true) : rstrip l = l := by
  unfold rstrip
  have hh : headOk l.reverse = true := by
    unfold headOk
    unfold lastOk at h
    rw [List.head?_reverse]
    exact h
  have := lstrip_eq_self l.reverse hh
  unfold lstrip at this
  rw [this, List.reverse_reverse]

theorem getLast?_append_right (t s : List Char) (hs : s ≠ []) :
    (t ++ s).getLast? = s.getLast? := by
  rw [List.getLast?_append]
  cases h : s.getLast? with
  | none => exact absurd (List.getLast?_eq_none_iff.mp h) hs
  | some a => rfl

theorem lastOk_lstrip (l : List Char) (h : lastOk l = true) : lastOk (lstrip l) = true := by
  unfold lstrip
  cases hd : l.dropWhile isWs with
  | nil => rfl
  | cons c cs =>
    obtain ⟨t, ht⟩ := List.dropWhile_suffix (l := l) (p := isWs)
    rw [hd] at ht
    rw [← ht] at h
    unfold lastOk at h ⊢
    rw [getLast?_append_right t (c :: cs) (by simp)] at h
    exact h

theorem headOk_strip (l : List Char) : headOk (strip l) = true :=
  headOk_lstrip (rstrip l)

theorem lastOk_strip (l : List Char) : lastOk (strip l) = true :=
  lastOk_lstrip (rstrip l) (lastOk_rstrip l)

theorem strip_eq_self (l : List Char) (h1 : headOk l = true) (h2 : lastOk l = true) :
    strip l = l := by
  unfold strip
  rw [rstrip_eq_self l h2, lstrip_eq_self l h1]

theorem strip_idem (l : List Char) : strip (strip l) = strip l :=
  strip_eq_self (strip l) (headOk_strip l) (lastOk_strip l)

theorem head?_append_left (t s : List Char) (ht : t ≠ []) :
    (t ++ s).head? = t.head? := by
  cases t with
  | nil => exact absurd rfl ht
  | cons c cs => rfl

theorem head?_rstrip (l : List Char) (h : rstrip l ≠ []) :
    (rstrip l).head? = l.head? := by
  obtain ⟨t, ht⟩ := List.dropWhile_suffix (l := l.reverse) (p := isWs)
  have hl : l = rstrip l ++ t.reverse := by
    have := congrArg List.reverse ht
    rw [List.reverse_append, List.reverse_reverse] at this
    exact this.symm
  conv_rhs => rw [hl]
  rw [head?_append_left _ _ h]

theorem rstrip_cons_of_not_ws (c : Char) (p : List Char) (h : isWs c = false) :
    rstrip (c :: p) = c :: rstrip p := by
  unfold rstrip
  rw [List.reverse_cons, List.dropWhile_append]
  cases hd : List.dropWhile isWs p.reverse with
  | nil =>
    simp only [List.isEmpty_nil, if_true]
    rw [List.dropWhile_cons_of_neg (by simp [h])]
    simp
  | cons x xs => simp

theorem strip_cons_of_not_ws (c : Char) (p : List Char) (h : isWs c = false) :
    strip (c :: p) = c :: rstrip p := by
  unfold strip
  rw [rstrip_cons_of_not_ws c p h]
  unfold lstrip
  exact List.dropWhile_cons_of_neg (by simp [h])

/-! ## Helper lemmas: splitOnDot and joinDot -/

theorem splitOnDot_ne_nil (l : List Char) : splitOnDot l ≠ [] := by
  cases l with
  | nil => simp [splitOnDot]
  | cons c cs =>
    unfold splitOnDot
    by_cases h : c = '.'
    · simp [h]
    · simp only [if_neg h]
      cases splitOnDot cs <;> simp

theorem joinDot_cons (p : List Char) (ps : List (List Char)) (h : ps ≠ []) :
    joinDot (p :: ps) = p ++ '.' :: joinDot ps := by
  cases ps with
  | nil => exact absurd rfl h
  | cons q qs => rfl

theorem joinDot_splitOnDot (l : List Char) : joinDot (splitOnDot l) = l := by
  induction l with
  | nil => rfl
  | cons c cs ih =>
    unfold splitOnDot
    by_cases h : c = '.'
    · rw [if_pos h, joinDot_cons [] (splitOnDot cs) (splitOnDot_ne_nil cs), ih, h]
      rfl
    · rw [if_neg h]
      cases hs : splitOnDot cs with
      | nil => exact absurd hs (splitOnDot_ne_nil cs)
      | cons p ps =>
        rw [hs] at ih
        cases ps with
        | nil =>
          show joinDot [c :: p] = c :: cs
          show c :: p = c :: cs
          rw [show joinDot [p] = p from rfl] at ih
          rw [ih]
        | cons q qs =>
          rw [joinDot_cons (c :: p) (q :: qs) (by simp), List.cons_append,
            ← joinDot_cons p (q :: qs) (by simp), ih]

theorem joinDot_append_single (ps : List (List Char)) (q : List Char) (h : ps ≠ []) :
    joinDot (ps ++ [q]) = joinDot ps ++ '.' :: q := by
  induction ps with
  | nil => exact absurd rfl h
  | cons p ps ih =>
    cases ps with
    | nil => rfl
    | cons r rs =>
      rw [List.cons_append, joinDot_cons p ((r :: rs) ++ [q]) (by simp),
        ih (by simp), joinDot_cons p (r :: rs) (by simp)]
      simp

/-! ## Helper lemmas: capFirst -/

theorem capFirst_cases (l : List Char) :
    capFirst l = l ∨
      ∃ c cs, l = c :: cs ∧ pyIsUpper c = false ∧ capFirst l = Char.toUpper c :: cs := by
  cases l with
  | nil => left; rfl
  | cons c cs =>
    by_cases h : pyIsUpper c = true
    · left; simp [capFirst, h]
    · right
      exact ⟨c, cs, rfl, by simpa using h, by simp [capFirst, Bool.eq_false_iff.mpr h]⟩

theorem capFirst_ne_nil (l : List Char) (h : l ≠ []) : capFirst l ≠ [] := by
  cases l with
  | nil => exact absurd rfl h
  | cons c cs =>
    unfold capFirst
    by_cases hc : pyIsUpper c <;> simp [hc]

/-! ## Helper lemmas: `ensure_proper_ending` -/

theorem epe_eq (text : List Char) (h : text ≠ []) :
    ensureProperEnding text = epeCore (strip text) := by
  unfold ensureProperEnding epeCore
  rw [if_neg h]
  dsimp only []
  split_ifs <;> rfl

theorem ne_nil_of_endsWithPunct (w : List Char) (h : endsWithPunct w = true) :
    w ≠ [] := by
  intro hw
  subst hw
  simp [endsWithPunct] at h

theorem lastOk_of_endsWithPunct (w : List Char) (h : endsWithPunct w = true) :
    lastOk w = true := by
  unfold endsWithPunct at h
  unfold lastOk
  cases hg : w.getLast? with
  | none => rfl
  | some c =>
    rw [hg] at h
    simp only [Bool.or_eq_true, decide_eq_true_eq] at h
    rcases h with (h | h) | h <;> subst h <;> decide

theorem endsWithPunct_append_dot (z : List Char) :
    endsWithPunct (z ++ ['.']) = true := by
  unfold endsWithPunct
  rw [getLast?_append_right z ['.'] (by simp)]
  rfl

theorem getLast?_cons_of_ne_nil (c : Char) (cs : List Char) (h : cs ≠ []) :
    (c :: cs).getLast? = cs.getLast? := by
  cases cs with
  | nil => exact absurd rfl h
  | cons d ds => exact List.getLast?_cons_cons

/-- Text whose first character is not whitespace and which ends in `.`, `!`
or `?` is, after the capitalisation step, a fixed point of
`ensure_proper_ending` with unchanged head/last invariants. -/
theorem capFirst_punct_fixed (w : List Char) (hh : headOk w = true)
    (hl : endsWithPunct w = true) :
    headOk (capFirst w) = true ∧ lastOk (capFirst w) = true ∧
      endsWithPunct (capFirst w) = true ∧
      ensureProperEnding (capFirst w) = capFirst w := by
  have fixed : ∀ v : List Char, headOk v = true → endsWithPunct v = true →
      ensureProperEnding v = v := by
    intro v hvh hvp
    rw [epe_eq v (ne_nil_of_endsWithPunct v hvp),
      strip_eq_self v hvh (lastOk_of_endsWithPunct v hvp)]
    unfold epeCore
    rw [if_pos hvp]
  rcases capFirst_cases w with hcw | ⟨c, cs, hw, hcu, hcw⟩
  · rw [hcw]
    exact ⟨hh, lastOk_of_endsWithPunct w hl, hl, fixed w hh hl⟩
  · by_cases hid : Char.toUpper c = c
    · rw [hid, ← hw] at hcw
      rw [hcw]
      exact ⟨hh, lastOk_of_endsWithPunct w hl, hl, fixed w hh hl⟩
    · have hlow : 97 ≤ c.toNat ∧ c.toNat ≤ 122 := by
        by_contra hn
        exact hid (toUpper_of_not_lower c hn)
      have hcs : cs ≠ [] := by
        intro he
        subst he
        subst hw
        unfold endsWithPunct at hl
        simp only [List.getLast?_singleton, Bool.or_eq_true, decide_eq_true_eq] at hl
        rcases hl with (h | h) | h <;> subst h <;>
          exact absurd hlow (by decide)
      have hglast : (capFirst w).getLast? = w.getLast? := by
        rw [hcw, hw, getLast?_cons_of_ne_nil _ _ hcs, getLast?_cons_of_ne_nil _ _ hcs]
      have hpunct : endsWithPunct (capFirst w) = true := by
        unfold endsWithPunct at hl ⊢
        rw [hglast]
        exact hl
      have hhead : headOk (capFirst w) = true := by
        rw [hcw]
        unfold headOk
        simp only [List.head?_cons]
        rw [isWs_toUpper]
        rw [hw] at hh
        unfold headOk at hh
        simpa using hh
      exact ⟨hhead, lastOk_of_endsWithPunct _ hpunct, hpunct, fixed _ hhead hpunct⟩

theorem headOk_append_left_iff (a b : List Char) (ha : a ≠ []) :
    headOk (a ++ b) = headOk a := by
  unfold headOk
  rw [head?_append_left a b ha]

theorem headOk_rstrip (l : List Char) (h : headOk l = true) :
    headOk (rstrip l) = true := by
  cases hr : rstrip l with
  | nil => rfl
  | cons x xs =>
    unfold headOk at h ⊢
    rw [← hr, head?_rstrip l (by rw [hr]; simp)]
    exact h

theorem getLastD_cons_of_ne_nil {α : Type} (x d : α) (l : List α) (h : l ≠ []) :
    (x :: l).getLastD d = l.getLastD d := by
  rw [List.getLastD_cons, List.getLastD_eq_getLast?, List.getLastD_eq_getLast?]
  cases hg : l.getLast? with
  | none => exact absurd (List.getLast?_eq_none_iff.mp hg) h
  | some a => rfl

theorem epeCore_master (t : List Char) (h1 : headOk t = true) (h2 : lastOk t = true) :
    headOk (epeCore t) = true ∧ lastOk (epeCore t) = true ∧
      ensureProperEnding (epeCore t) = epeCore t := by
  by_cases hp : endsWithPunct t = true
  · have he : epeCore t = t := by
      unfold epeCore
      rw [if_pos hp]
    rw [he]
    refine ⟨h1, h2, ?_⟩
    rw [epe_eq t (ne_nil_of_endsWithPunct t hp), strip_eq_self t h1 h2, he]
  · by_cases h5 : (strip ((splitOnDot t).getLastD [])).length < 5
    · by_cases hlen : 1 < (splitOnDot t).length
      · -- several sentences, short trailing fragment: drop it and close with '.'
        have he : epeCore t = capFirst (joinDot (splitOnDot t).dropLast ++ ['.']) := by
          unfold epeCore
          rw [if_neg hp, if_pos h5, if_pos hlen]
        have hhw : headOk (joinDot (splitOnDot t).dropLast ++ ['.']) = true := by
          by_cases hz : joinDot (splitOnDot t).dropLast = []
          · rw [hz]
            decide
          · rw [headOk_append_left_iff _ _ hz]
            have hpne : splitOnDot t ≠ [] := splitOnDot_ne_nil t
            have hdl : (splitOnDot t).dropLast ≠ [] := by
              have hld : (splitOnDot t).dropLast.length = (splitOnDot t).length - 1 :=
                List.length_dropLast _
              intro hnil
              rw [hnil] at hld
              simp at hld
              omega
            have ht : t = joinDot (splitOnDot t).dropLast ++
                '.' :: (splitOnDot t).getLast hpne := by
              conv_lhs => rw [← joinDot_splitOnDot t,
                ← List.dropLast_append_getLast hpne,
                joinDot_append_single _ _ hdl]
            rw [ht, headOk_append_left_iff _ _ hz] at h1
            exact h1
        have hfix := capFirst_punct_fixed _ hhw (endsWithPunct_append_dot _)
        rw [he]
        exact ⟨hfix.1, hfix.2.1, hfix.2.2.2⟩
      · -- a single short sentence: append '.'
        have he : epeCore t = capFirst (rstrip t ++ ['.']) := by
          unfold epeCore
          rw [if_neg hp, if_pos h5, if_neg hlen]
        have hhw : headOk (rstrip t ++ ['.']) = true := by
          by_cases hz : rstrip t = []
          · rw [hz]
            decide
          · rw [headOk_append_left_iff _ _ hz]
            exact headOk_rstrip t h1
        have hfix := capFirst_punct_fixed _ hhw (endsWithPunct_append_dot _)
        rw [he]
        exact ⟨hfix.1, hfix.2.1, hfix.2.2.2⟩
    · -- trailing fragment of length ≥ 5: only the capitalisation step runs
      have ht : t ≠ [] := by
        intro hnil
        subst hnil
        exact h5 (by decide)
      rcases capFirst_cases t with hcap | ⟨c, cs, hw, hcu, hcap⟩
      · have he : epeCore t = t := by
          unfold epeCore
          rw [if_neg hp, if_neg h5]
          exact hcap
        rw [he]
        refine ⟨h1, h2, ?_⟩
        rw [epe_eq t ht, strip_eq_self t h1 h2, he]
      · subst hw
        by_cases hid : Char.toUpper c = c
        · rw [hid] at hcap
          have he : epeCore (c :: cs) = c :: cs := by
            unfold epeCore
            rw [if_neg hp, if_neg h5]
            exact hcap
          rw [he]
          refine ⟨h1, h2, ?_⟩
          rw [epe_eq _ ht, strip_eq_self _ h1 h2, he]
        · have hlow : 97 ≤ c.toNat ∧ c.toNat ≤ 122 := by
            by_contra hn
            exact hid (toUpper_of_not_lower c hn)
          have hcns : isWs c = false := by
            unfold headOk at h1
            simpa using h1
          have hCw : isWs (Char.toUpper c) = false := by
            rw [isWs_toUpper]
            exact hcns
          have hcdot : c ≠ '.' := ne_dot_of_lower c hlow.1 hlow.2
          have hCdot : Char.toUpper c ≠ '.' := toUpper_ne_dot_of_lower c hlow.1 hlow.2
          have hcs : cs ≠ [] := by
            intro hnil
            subst hnil
            apply h5
            have hsp : splitOnDot [c] = [[c]] := by
              unfold splitOnDot
              rw [if_neg hcdot]
              rfl
            rw [hsp]
            show (strip [c]).length < 5
            rw [show ([c] : List Char) = c :: ([] : List Char) from rfl,
              strip_cons_of_not_ws c [] hcns]
            simp [rstrip]
          have he : epeCore (c :: cs) = Char.toUpper c :: cs := by
            unfold epeCore
            rw [if_neg hp, if_neg h5]
            exact hcap
          have hheadOut : headOk (Char.toUpper c :: cs) = true := by
            unfold headOk
            simp [hCw]
          have hglast : (Char.toUpper c :: cs).getLast? = (c :: cs).getLast? := by
            rw [getLast?_cons_of_ne_nil _ _ hcs, getLast?_cons_of_ne_nil _ _ hcs]
          have hlastOut : lastOk (Char.toUpper c :: cs) = true := by
            unfold lastOk at h2 ⊢
            rw [hglast]
            exact h2
          have hpunctOut : ¬endsWithPunct (Char.toUpper c :: cs) = true := by
            unfold endsWithPunct at hp ⊢
            rw [hglast]
            exact hp
          obtain ⟨p, ps, hsp⟩ : ∃ p ps, splitOnDot cs = p :: ps := by
            cases hsp : splitOnDot cs with
            | nil => exact absurd hsp (splitOnDot_ne_nil cs)
            | cons p ps => exact ⟨p, ps, rfl⟩
          have hspC : splitOnDot (Char.toUpper c :: cs) = (Char.toUpper c :: p) :: ps := by
            unfold splitOnDot
            rw [if_neg hCdot, hsp]
          have hspc : splitOnDot (c :: cs) = (c :: p) :: ps := by
            unfold splitOnDot
            rw [if_neg hcdot, hsp]
          have hlen5 : ¬(strip ((splitOnDot (Char.toUpper c :: cs)).getLastD [])).length < 5 := by
            rw [hspC]
            rw [hspc] at h5
            cases ps with
            | nil =>
              intro hcontra
              apply h5
              show (strip (c :: p)).length < 5
              rw [strip_cons_of_not_ws c p hcns]
              rw [show (((Char.toUpper c :: p) : List Char) :: []).getLastD [] =
                Char.toUpper c :: p from rfl,
                strip_cons_of_not_ws _ p hCw] at hcontra
              simpa using hcontra
            | cons q qs =>
              rw [getLastD_cons_of_ne_nil _ _ _ (by simp)]
              rw [getLastD_cons_of_ne_nil _ _ _ (by simp)] at h5
              exact h5
          refine ⟨by rw [he]; exact hheadOut, by rw [he]; exact hlastOut, ?_⟩
          rw [he, epe_eq _ (by simp), strip_eq_self _ hheadOut hlastOut]
          unfold epeCore
          rw [if_neg hpunctOut, if_neg hlen5]
          unfold capFirst
          simp [pyIsUpper_toUpper_of_lower c hlow.1 hlow.2]

/-! ## Helper lemmas: round4 -/

theorem roundHalfEven_ge (y : Rat) : y - 1 / 2 ≤ (roundHalfEven y : Rat) := by
  have h1 := Int.floor_le y
  have h2 := Int.lt_floor_add_one y
  unfold roundHalfEven
  dsimp only []
  split_ifs with hf1 hf2 hf3 <;> push_cast <;> linarith

theorem roundHalfEven_le_int (y : Rat) (N : Int) (h : y ≤ N) :
    roundHalfEven y ≤ N := by
  have hfl : ⌊y⌋ ≤ N := by
    have := Int.floor_le_floor h
    rwa [Int.floor_intCast] at this
  unfold roundHalfEven
  dsimp only []
  split_ifs with hf1 hf2 hf3
  · exact hfl
  · by_contra hc
    have hNf : N ≤ ⌊y⌋ := by omega
    have hNf2 : (N : Rat) ≤ (⌊y⌋ : Rat) := by exact_mod_cast hNf
    have := Int.floor_le y
    linarith
  · exact hfl
  · by_contra hc
    have hNf : N ≤ ⌊y⌋ := by omega
    have hNf2 : (N : Rat) ≤ (⌊y⌋ : Rat) := by exact_mod_cast hNf
    have := Int.floor_le y
    linarith

theorem roundHalfEven_ge_int (y : Rat) (k : Int) (h : (k : Rat) ≤ y) :
    k ≤ roundHalfEven y := by
  have hk : k ≤ ⌊y⌋ := Int.le_floor.mpr h
  unfold roundHalfEven
  dsimp only []
  split_ifs <;> omega

theorem round4_ge_sub (x : Rat) : x - 1 / 20000 ≤ round4 x := by
  unfold round4
  rw [le_div_iff₀ (by norm_num : (0 : Rat) < 10000)]
  have := roundHalfEven_ge (x * 10000)
  linarith

theorem round4_nonneg (x : Rat) (h : 0 ≤ x) : 0 ≤ round4 x := by
  unfold round4
  have hk : (0 : Int) ≤ roundHalfEven (x * 10000) :=
    roundHalfEven_ge_int (x * 10000) 0 (by push_cast; positivity)
  exact div_nonneg (by exact_mod_cast hk) (by norm_num)

theorem round4_le_one (x : Rat) (h : x ≤ 1) : round4 x ≤ 1 := by
  unfold round4
  have hk : roundHalfEven (x * 10000) ≤ 10000 :=
    roundHalfEven_le_int (x * 10000) 10000 (by push_cast; linarith)
  rw [div_le_one (by norm_num : (0 : Rat) < 10000)]
  exact_mod_cast hk

theorem round4_ge_of_int_le (x : Rat) (k : Int) (h : (k : Rat) / 10000 ≤ x) :
    (k : Rat) / 10000 ≤ round4 x := by
  unfold round4
  have hky : (k : Rat) ≤ x * 10000 := by
    rw [div_le_iff₀ (by norm_num : (0 : Rat) < 10000)] at h
    exact h
  have hk : k ≤ roundHalfEven (x * 10000) := roundHalfEven_ge_int (x * 10000) k hky
  have hkr : (k : Rat) ≤ (roundHalfEven (x * 10000) : Rat) := by exact_mod_cast hk
  rw [div_le_div_iff₀ (by norm_num) (by norm_num)]
  linarith

/-! ## Unfolding equation for the generate_answer retry loop -/

theorem genLoop_succ (gen : Nat → Except Unit (List Char)) (model question : List Char)
    (contextDocs : List (List Char)) (maxRetries fuel attempt : Nat) :
    genLoop gen model question contextDocs maxRetries (fuel + 1) attempt =
      match gen attempt with
      | .ok resp =>
        let answer := strip resp
        let wordCount := (splitWs answer).length
        if wordCount < MIN_RESPONSE_TOKENS ∧ attempt < maxRetries - 1 then
          genLoop gen model question contextDocs maxRetries fuel (attempt + 1)
        else
          (ensureProperEnding answer, str "ollama-" ++ model)
      | .error _ =>
        if attempt < maxRetries - 1 then
          genLoop gen model question contextDocs maxRetries fuel (attempt + 1)
        else
          generateAnswerExtractive question contextDocs := rfl

/-! ## Claims -/

/-- `perform_rag` reaches the `ValueError` whenever the retained search
results are empty (src/routes/rag_routes.py line 31). -/
theorem performRag_valueError_of_searchCore_empty
    (gen : Nat → Except Unit (List Char)) (model : List Char)
    (provider : Except Unit (Option (List Rat)))
    (collectionResp : List Rat → Int → List SRow)
    (question : List Char) (topK? : Option Int) (threshold? : Option Rat)
    (timestamp : List Char) (hq : strip question ≠ [])
    (hempty : searchCore (pyOrRat threshold? (11 / 20))
      (collectionResp (getOllamaEmbedding question provider)
        (min (pyOrInt topK? 20) 20)) = []) :
    performRag gen model provider collectionResp question topK? threshold? timestamp =
      .error .valueError := by
  unfold performRag searchDocuments
  rw [if_neg hq]
  dsimp only []
  rw [if_neg hq]
  dsimp only []
  rw [hempty]
  rfl

/-- C1: the claim says a no-context synchronous RAG query returns the answer
"No relevant documents found." rather than failing.  In the code, lines 29
and 31 of src/routes/rag_routes.py unpack that 28-character string into the
pair `generated_answer, model_used`, which raises a `ValueError`: both the
empty-search branch (first conjunct) and the branch where the index returns
a candidate whose similarity 0.4 falls below the default threshold 0.55
(second conjunct, spec Scenario B) end in that error, not in a response. -/
theorem C1_no_context_path_raises_valueError :
    performRag (fun _ => .error ()) (str "gemma3:1b") (.ok (some [1]))
        (fun _ _ => []) (str "What is X?") none none (str "t") =
      .error .valueError ∧
    performRag (fun _ => .error ()) (str "gemma3:1b") (.ok (some [1]))
        (fun _ _ => [⟨str "d1", str "doc", [], 3 / 5⟩])
        (str "What is X?") none none (str "t") =
      .error .valueError := by
  constructor
  · rfl
  · apply performRag_valueError_of_searchCore_empty _ _ _ _ _ _ _ _ (by decide)
    unfold searchCore
    rw [if_neg ?_]
    · rfl
    · show ¬((11 : Rat) / 20 ≤ max 0 (1 - 3 / 5))
      rw [max_eq_right (by norm_num : (0 : Rat) ≤ 1 - 3 / 5)]
      norm_num

/-- C2 counterexample: with both attempts succeeding but short (3 words
< 50), `generate_answer` returns the short LLM answer with provenance
"ollama-gemma3:1b", not the extractive fallback with provenance
"extractive" as the claim states. -/
theorem C2_counterexample_short_not_extractive :
    generateAnswer (fun _ => .ok (str "Too short.")) (str "gemma3:1b") (str "What is X?")
        [str "Some document text."] = (str "Too short.", str "ollama-gemma3:1b") ∧
    generateAnswerExtractive (str "What is X?") [str "Some document text."] =
        (str "No good match.", str "extractive") ∧
    str "ollama-gemma3:1b" ≠ str "extractive" :=
  ⟨rfl, rfl, by decide⟩

/-- C2 amended: when attempt 0 succeeds but is below the 50-word minimum and
attempt 1 (the final attempt) also succeeds, `generate_answer` returns the
attempt-1 answer (normalised by `ensure_proper_ending`) with provenance
`"ollama-" + model`, regardless of the attempt-1 word count; the extractive
fallback is reached only when the final attempt raises. -/
theorem C2_amended_final_short_answer_returned (gen : Nat → Except Unit (List Char))
    (model question : List Char) (contextDocs : List (List Char)) (r0 r1 : List Char)
    (h0 : gen 0 = .ok r0) (h1 : gen 1 = .ok r1)
    (hshort : (splitWs (strip r0)).length < MIN_RESPONSE_TOKENS) :
    generateAnswer gen model question contextDocs =
      (ensureProperEnding (strip r1), str "ollama-" ++ model) := by
  unfold generateAnswer
  rw [show genLoop gen model question contextDocs 2 2 0 =
      genLoop gen model question contextDocs 2 (1 + 1) 0 from rfl,
    genLoop_succ, h0]
  dsimp only []
  rw [if_pos ⟨hshort, by norm_num⟩]
  rw [show genLoop gen model question contextDocs 2 1 (0 + 1) =
      genLoop gen model question contextDocs 2 (0 + 1) 1 from rfl,
    genLoop_succ, h1]
  dsimp only []
  rw [if_neg (fun hc => absurd hc.2 (by norm_num))]

/-- C2 amended, witness: two successful short attempts on a concrete query. -/
theorem C2_amended_witness :
    generateAnswer
        (fun n => if n = 0 then .ok (str "Too short.") else .ok (str "Also short."))
        (str "gemma3:1b") (str "What is X?") [str "Some document text."] =
      (ensureProperEnding (strip (str "Also short.")), str "ollama-" ++ str "gemma3:1b") :=
  C2_amended_final_short_answer_returned
    (fun n => if n = 0 then .ok (str "Too short.") else .ok (str "Also short."))
    (str "gemma3:1b") (str "What is X?") [str "Some document text."]
    (str "Too short.") (str "Also short.") rfl rfl (by decide)

/-- C3: the claim says `ensure_proper_ending` always returns text ending in
'.', '!' or '?' for non-empty input, and maps "The cat sat" to
"The cat sat.".  The code only appends a period when the fragment after the
last period is shorter than 5 characters (src/llm.py line 248); for
"The cat sat" the fragment has length 11, so the text is returned verbatim,
without terminal punctuation. -/
theorem C3_the_cat_sat_returned_without_period :
    ensureProperEnding (str "The cat sat") = str "The cat sat" ∧
      endsWithPunct (ensureProperEnding (str "The cat sat")) = false := by
  decide

/-- C4 counterexample: the embedding provider returns an empty vector, yet
`get_ollama_embedding` returns `[]` instead of raising an `EmbeddingError`
(no such exception exists in the code), and `search_documents` continues,
querying the collection with the empty embedding and answering `200 OK` with
an ordinary (here empty) result list — not a service error. -/
theorem C4_counterexample_silent_empty_embedding :
    getOllamaEmbedding (str "What is X?") (.ok (some [])) = [] ∧
      searchDocuments (str "What is X?") 20 (11 / 20) (.ok (some []))
        (fun _ _ => []) = .ok [] :=
  ⟨rfl, rfl⟩

/-- C4 amended: for every failing provider response (raised exception,
missing/invalid `"embedding"` key, or empty vector), `get_ollama_embedding`
returns the empty list and `search_documents` silently proceeds, querying
the collection with that empty embedding and returning whatever survives the
threshold filter wrapped in `.ok` — never an error. -/
theorem C4_amended_empty_embedding_continues (question : List Char)
    (provider : Except Unit (Option (List Rat)))
    (collectionResp : List Rat → Int → List SRow) (topK : Int) (threshold : Rat)
    (hq : strip question ≠ [])
    (hbad : provider = .error () ∨ provider = .ok none ∨ provider = .ok (some [])) :
    getOllamaEmbedding question provider = [] ∧
      searchDocuments question topK threshold provider collectionResp =
        .ok (searchCore threshold (collectionResp [] (min topK 20))) := by
  have he : getOllamaEmbedding question provider = [] := by
    unfold getOllamaEmbedding
    rw [if_neg hq]
    rcases hbad with h | h | h <;> subst h <;> simp
  refine ⟨he, ?_⟩
  unfold searchDocuments
  rw [if_neg hq]
  dsimp only []
  rw [he]

/-- C4 amended, witness: a provider response without an embedding key. -/
theorem C4_amended_witness :
    getOllamaEmbedding (str "Why?") (.ok none) = [] ∧
      searchDocuments (str "Why?") 20 (11 / 20) (.ok none)
          (fun (_ : List Rat) (_ : Int) => ([] : List SRow)) =
        .ok (searchCore (11 / 20)
          ((fun (_ : List Rat) (_ : Int) => ([] : List SRow)) [] (min 20 20))) :=
  C4_amended_empty_embedding_continues (str "Why?") (.ok none)
    (fun (_ : List Rat) (_ : Int) => ([] : List SRow)) 20
    (11 / 20) (by decide) (.inr (.inl rfl))

/-- C5 counterexample: a `Query` parsed with `top_k` and threshold absent
gets the pydantic model defaults 3 and 0.3 (src/models.py lines 18-19),
which are truthy, so the `or`-resolution in `perform_rag` keeps them:
the resolved values are 3 and 0.3, not the claimed 20 and 0.55. -/
theorem C5_counterexample_absent_fields_keep_model_defaults :
    pyOrInt (parseTopK none) 20 = 3 ∧ (3 : Int) ≠ 20 ∧
      pyOrRat (parseThreshold none) (11 / 20) = 3 / 10 ∧ (3 / 10 : Rat) ≠ 11 / 20 := by
  refine ⟨rfl, by decide, ?_, by norm_num⟩
  unfold parseThreshold pyOrRat
  dsimp only []
  rw [if_neg (by norm_num : ¬((3 : Rat) / 10 = 0))]

/-- C5 amended: the `or`-resolution in `perform_rag` maps an explicit null
or zero to 20 / 0.55 and keeps any other explicit value, while an absent
field receives the pydantic model default (3 / 0.3) and keeps it. -/
theorem C5_amended_resolution_table :
    pyOrInt (parseTopK (some none)) 20 = 20 ∧
    pyOrInt (parseTopK (some (some 0))) 20 = 20 ∧
    pyOrInt (parseTopK (some (some 7))) 20 = 7 ∧
    pyOrInt (parseTopK none) 20 = 3 ∧
    pyOrRat (parseThreshold (some none)) (11 / 20) = 11 / 20 ∧
    pyOrRat (parseThreshold (some (some 0))) (11 / 20) = 11 / 20 ∧
    pyOrRat (parseThreshold none) (11 / 20) = 3 / 10 := by
  refine ⟨rfl, rfl, rfl, rfl, rfl, rfl, ?_⟩
  unfold parseThreshold pyOrRat
  dsimp only []
  rw [if_neg (by norm_num : ¬((3 : Rat) / 10 = 0))]

/-- C6 counterexample: the threshold filter runs on the unrounded
similarity, the stored value is rounded afterwards.  With threshold 0.55001
and cosine distance 0.449951, the unrounded similarity 0.550049 passes the
filter, but the stored similarity rounds to 0.55 < 0.55001 — so a returned
`SearchResult` violates `similarity ≥ threshold` as the claim states it. -/
theorem C6_counterexample_rounded_below_threshold :
    searchCore (55001 / 100000) [⟨str "d1", str "doc", [], 449951 / 1000000⟩] =
      [{ id := str "d1", title := str "Untitled", content := str "doc",
         similarity := 11 / 20, metadata := [] }] ∧
    (11 / 20 : Rat) < 55001 / 100000 := by
  have hmax : max (0 : Rat) (1 - 449951 / 1000000) = 550049 / 1000000 := by
    rw [max_eq_right (by norm_num : (0 : Rat) ≤ 1 - 449951 / 1000000)]
    norm_num
  have h4 : round4 (max (0 : Rat) (1 - 449951 / 1000000)) = 11 / 20 := by
    rw [hmax]
    unfold round4 roundHalfEven
    dsimp only []
    have hy : (550049 : Rat) / 1000000 * 10000 = 550049 / 100 := by norm_num
    rw [hy]
    have hfl : ⌊(550049 : Rat) / 100⌋ = 5500 := by
      rw [Int.floor_eq_iff]
      constructor <;> norm_num
    rw [hfl, if_pos (by push_cast; norm_num)]
    push_cast
    norm_num
  constructor
  · unfold searchCore
    dsimp only []
    rw [if_pos (by rw [hmax]; norm_num), h4]
    rfl
  · norm_num

/-- C6 amended: every returned `SearchResult` carries the similarity
`round4 (max 0 (1 - d))` of some returned row whose unrounded similarity
clears the threshold; given nonnegative cosine distances the stored value
lies in [0, 1]; the stored (rounded) value is only guaranteed to be at least
`threshold - 0.00005`, with full `threshold ≤ similarity` when the threshold
is itself a multiple of 10⁻⁴ (as the default 0.55 is). -/
theorem C6_amended_similarity_invariants (threshold : Rat) (rows : List SRow)
    (hd : ∀ row ∈ rows, 0 ≤ row.distance) :
    ∀ r ∈ searchCore threshold rows,
      (∃ row ∈ rows, r.similarity = round4 (max 0 (1 - row.distance)) ∧
        threshold ≤ max 0 (1 - row.distance)) ∧
      0 ≤ r.similarity ∧ r.similarity ≤ 1 ∧
      threshold - 1 / 20000 ≤ r.similarity ∧
      (∀ k : Int, threshold = (k : Rat) / 10000 → threshold ≤ r.similarity) := by
  induction rows with
  | nil =>
    intro r hr
    simp [searchCore] at hr
  | cons row rest ih =>
    intro r hr
    unfold searchCore at hr
    by_cases hth : threshold ≤ max 0 (1 - row.distance)
    · rw [if_pos hth] at hr
      rcases List.mem_cons.mp hr with hr | hr
      · have hd0 : 0 ≤ row.distance := hd row (List.mem_cons_self row rest)
        have hs0 : (0 : Rat) ≤ max 0 (1 - row.distance) := le_max_left 0 _
        have hs1 : max 0 (1 - row.distance) ≤ 1 := by
          rw [max_le_iff]
          constructor <;> linarith
        have hsim : r.similarity = round4 (max 0 (1 - row.distance)) := by
          rw [hr]
        refine ⟨⟨row, List.mem_cons_self row rest, hsim, hth⟩, ?_, ?_, ?_, ?_⟩
        · rw [hsim]
          exact round4_nonneg _ hs0
        · rw [hsim]
          exact round4_le_one _ hs1
        · rw [hsim]
          have := round4_ge_sub (max 0 (1 - row.distance))
          linarith
        · intro k hk
          rw [hsim, hk]
          exact round4_ge_of_int_le _ k (by rw [← hk]; exact hth)
      · have hres := ih (fun q hq => hd q (List.mem_cons_of_mem row hq)) r hr
        refine ⟨?_, hres.2⟩
        obtain ⟨q, hq, hqs⟩ := hres.1
        exact ⟨q, List.mem_cons_of_mem row hq, hqs⟩
    · rw [if_neg hth] at hr
      have hres := ih (fun q hq => hd q (List.mem_cons_of_mem row hq)) r hr
      refine ⟨?_, hres.2⟩
      obtain ⟨q, hq, hqs⟩ := hres.1
      exact ⟨q, List.mem_cons_of_mem row hq, hqs⟩

/-- C6 amended, witness: distance 0.4 under the default threshold 0.55;
the stored similarity 0.6 satisfies all the bounds. -/
theorem C6_amended_witness :
    0 ≤ ({ id := str "d1", title := str "Untitled", content := str "doc",
           similarity := 3 / 5, metadata := [] } : SearchResultM).similarity ∧
    ({ id := str "d1", title := str "Untitled", content := str "doc",
       similarity := 3 / 5, metadata := [] } : SearchResultM).similarity ≤ 1 ∧
    (11 : Rat) / 20 - 1 / 20000 ≤
      ({ id := str "d1", title := str "Untitled", content := str "doc",
         similarity := 3 / 5, metadata := [] } : SearchResultM).similarity := by
  have hmax : max (0 : Rat) (1 - 2 / 5) = 3 / 5 := by
    rw [max_eq_right (by norm_num : (0 : Rat) ≤ 1 - 2 / 5)]
    norm_num
  have h4 : round4 (max (0 : Rat) (1 - 2 / 5)) = 3 / 5 := by
    rw [hmax]
    unfold round4 roundHalfEven
    dsimp only []
    have hy : (3 : Rat) / 5 * 10000 = 6000 := by norm_num
    rw [hy]
    have hfl : ⌊(6000 : Rat)⌋ = 6000 := by
      rw [Int.floor_eq_iff]
      constructor <;> norm_num
    rw [hfl, if_pos (by push_cast; norm_num)]
    push_cast
    norm_num
  have hmem : ({ id := str "d1", title := str "Untitled", content := str "doc", similarity := 3 / 5, metadata := [] } : SearchResultM) ∈ searchCore (11 / 20) [⟨str "d1", str "doc", [], 2 / 5⟩] := by
    unfold searchCore
    dsimp only []
    rw [if_pos (by rw [hmax]; norm_num), h4]
    exact List.mem_cons_self _ _
  have h := C6_amended_similarity_invariants (11 / 20)
    [⟨str "d1", str "doc", [], 2 / 5⟩]
    (by intro row hrow
        rcases List.mem_cons.mp hrow with h | h
        · rw [h]
          norm_num
        · simp at h)
    _ hmem
  exact ⟨h.2.1, h.2.2.1, h.2.2.2.1⟩

/-- C7: `generate_answer` never raises (it is a total function of the
generation oracle), and when the underlying generation raises on both
allowed attempts it returns exactly the Extractive Fallback output for the
same query and context, whose provenance tag is always "extractive". -/
theorem C7_double_failure_falls_back_to_extractive
    (gen : Nat → Except Unit (List Char)) (model question : List Char)
    (contextDocs : List (List Char))
    (h0 : gen 0 = .error ()) (h1 : gen 1 = .error ()) :
    generateAnswer gen model question contextDocs =
      generateAnswerExtractive question contextDocs ∧
    (generateAnswerExtractive question contextDocs).2 = str "extractive" := by
  constructor
  · unfold generateAnswer
    rw [show genLoop gen model question contextDocs 2 2 0 =
        genLoop gen model question contextDocs 2 (1 + 1) 0 from rfl,
      genLoop_succ, h0]
    dsimp only []
    rw [if_pos (by norm_num)]
    rw [show genLoop gen model question contextDocs 2 1 (0 + 1) =
        genLoop gen model question contextDocs 2 (0 + 1) 1 from rfl,
      genLoop_succ, h1]
    dsimp only []
    rw [if_neg (by norm_num)]
  · unfold generateAnswerExtractive
    by_cases hc : contextDocs = [] <;> simp [hc]

/-- C7, witness: a generation oracle that raises on every attempt. -/
theorem C7_witness :
    generateAnswer (fun _ => .error ()) (str "gemma3:1b") (str "q") [str "doc"] =
      generateAnswerExtractive (str "q") [str "doc"] ∧
    (generateAnswerExtractive (str "q") [str "doc"]).2 = str "extractive" :=
  C7_double_failure_falls_back_to_extractive (fun _ => .error ())
    (str "gemma3:1b") (str "q") [str "doc"] rfl rfl

/-- C8: the claim says the concatenation of the emitted chunks equals the
final non-streaming answer up to the trailing natural-ending adjustment.
On the underlying stream ["Hi."], the first emitted chunk triggers
`detect_natural_ending`; the pause at src/llm.py line 180 references the
function-local `asyncio` before the `import asyncio` at line 191 has run,
raising `UnboundLocalError`.  The `except` handler then re-generates a full
answer (here, with a failing oracle, the extractive "No good match.") and
streams it word by word after the already-emitted chunk.  The concatenation
"Hi.No good match." is not the final answer "Hi." under any trailing
adjustment. -/
theorem C8_streaming_crash_duplicates_output :
    streamGen (fun _ => .error ()) (str "gemma3:1b") (str "q") [str "irrelevant"]
        [str "Hi."] = [str "Hi.", str "No ", str "good ", str "match."] ∧
    (streamGen (fun _ => .error ()) (str "gemma3:1b") (str "q") [str "irrelevant"]
        [str "Hi."]).flatten = str "Hi.No good match." ∧
    ensureProperEnding (List.flatten [str "Hi."]) = str "Hi." ∧
    (streamGen (fun _ => .error ()) (str "gemma3:1b") (str "q") [str "irrelevant"]
        [str "Hi."]).flatten ≠ ensureProperEnding (List.flatten [str "Hi."]) :=
  ⟨rfl, rfl, rfl, by decide⟩

/-- C9: `ensure_proper_ending` is idempotent: applying it twice yields the
same result as applying it once, for every input string. -/
theorem C9_ensureProperEnding_idempotent (x : List Char) :
    ensureProperEnding (ensureProperEnding x) = ensureProperEnding x := by
  by_cases hx : x = []
  · subst hx
    rfl
  · rw [epe_eq x hx]
    exact (epeCore_master (strip x) (headOk_strip x) (lastOk_strip x)).2.2

/-- C10 counterexample: on the whitespace-only input " ", the function
returns ".", while on the stripped input "" it returns "" — so
`normalize(x) = normalize(x.strip())` fails for whitespace-only input. -/
theorem C10_counterexample_whitespace_only :
    ensureProperEnding (str " ") = str "." ∧
      ensureProperEnding (strip (str " ")) = str "" ∧
      ensureProperEnding (str " ") ≠ ensureProperEnding (strip (str " ")) := by
  decide

/-- C10 amended: for every input whose stripped content is non-empty,
`ensure_proper_ending` agrees with its value on the stripped input, and its
output carries no leading or trailing whitespace.  (For whitespace-only
non-empty input the two sides differ: "." versus "".) -/
theorem C10_amended_strip_first (x : List Char) (h : strip x ≠ []) :
    ensureProperEnding x = ensureProperEnding (strip x) ∧
      headOk (ensureProperEnding x) = true ∧
      lastOk (ensureProperEnding x) = true := by
  have hx : x ≠ [] := by
    intro he
    subst he
    exact h rfl
  have e1 : ensureProperEnding x = epeCore (strip x) := epe_eq x hx
  have e2 : ensureProperEnding (strip x) = epeCore (strip (strip x)) := epe_eq _ h
  rw [strip_idem] at e2
  refine ⟨by rw [e1, e2], ?_, ?_⟩
  · rw [e1]
    exact (epeCore_master _ (headOk_strip x) (lastOk_strip x)).1
  · rw [e1]
    exact (epeCore_master _ (headOk_strip x) (lastOk_strip x)).2.1

/-- C10 amended, witness: "  Hi." strips to "Hi." and both sides agree. -/
theorem C10_amended_witness :
    ensureProperEnding (str "  Hi.") = ensureProperEnding (strip (str "  Hi.")) ∧
      headOk (ensureProperEnding (str "  Hi.")) = true ∧
      lastOk (ensureProperEnding (str "  Hi.")) = true :=
  C10_amended_strip_first (str "  Hi.") (by decide)
